import Mathlib

/-!
Verification of the draw/state core of the classroom name-picker (src/app.js).

Shallow embedding conventions, stated once here:

* Strings are Lean `String`s (lists of characters).  The JavaScript regex
  stages of `createKey` and of whitespace normalization are translated
  character by character.  NFC/NFKD normalization and diacritic stripping are
  host Unicode services; they are the identity on the inputs considered here
  (diacritic-free, composition-stable text), so the embedding applies ASCII
  lowercasing (`Char.toLower`, matching `toLocaleLowerCase` on ASCII) and
  omits the decomposition steps.  Every property proved about the output
  shape of `createKey` depends only on the later filter stages, which are
  translated exactly, so it holds for arbitrary character data.
* `crypto.getRandomValues` yields one fresh unsigned 32-bit value per call.
  The embedding passes that entropy explicitly: `createKey` takes the drawn
  value as an argument, and functions that may call it repeatedly take an
  entropy stream `ent : Nat → Nat` indexed by the position of the processed
  element.  Likewise `crypto.randomUUID` is an explicit stream
  `fresh : Nat → String`, and `new Date(ts)` validity
  (`!Number.isNaN(new Date(ts).getTime())`) is an explicit host predicate
  `tsValid : String → Bool`.
* A JavaScript `Map`/`Set` is an insertion-ordered list without duplicate
  keys; `Map.prototype.set` on an existing key overwrites the value in
  place, preserving the original position, exactly as `mapSet` below does.
* `JSON.parse ∘ JSON.stringify` is the identity on the plain data the app
  exports, so the export/import round trip is embedded as the composition
  of `exportPayload`, the document view `exportDoc`, and `importPayload`.
* `Number(v)` coercion of an imported `spinMs` field is embedded by its
  result: `some n` when the coerced value is a finite number `n`, `none`
  when it is not finite (`NaN`/`Infinity`/non-numeric).  JSON numbers of
  interest are integral, so the finite values are modeled as `Int`.
-/

namespace Losovacka

/-! ## Data model -/

/-- A roster entry `{ raw, key }`. -/
structure NameEntry where
  raw : String
  key : String
deriving DecidableEq, Repr

/-- A history entry `{ key, ts, id }`. -/
structure HistEntry where
  key : String
  ts : String
  id : String
deriving DecidableEq, Repr

/-- The settings record `{ spinMs, reducedMotionMode, theme }`. -/
structure Settings where
  spinMs : Int
  reducedMotionMode : String
  theme : String
deriving DecidableEq, Repr

/-- `DEFAULT_SETTINGS` from app.js. -/
def DEFAULT_SETTINGS : Settings :=
  { spinMs := 2600, reducedMotionMode := "auto", theme := "auto" }

/-- `DEFAULT_CLASS_KEY` from app.js. -/
def DEFAULT_CLASS_KEY : String := "trida-1"

/-- `APP_VERSION` from app.js. -/
def APP_VERSION : Int := 1

/-! ## utils: key derivation and name merging -/

namespace utils

/-- ASCII lowercase letter test (the character class `a-z`). -/
def isLowerAZ (c : Char) : Bool := 'a' ≤ c && c ≤ 'z'

/-- Digit test (the character class `0-9`). -/
def isDigit09 (c : Char) : Bool := '0' ≤ c && c ≤ '9'

/-- The whitespace class `\s` (the forms that occur in the app's inputs). -/
def isWS (c : Char) : Bool := c = ' ' || c = '\t' || c = '\n' || c = '\r'

/-- A character admitted by the slug filter `[^a-z0-9\s-]` removal. -/
def keepSlugSrc (c : Char) : Bool := isLowerAZ c || isDigit09 c || isWS c || c = '-'

/-- A character of a finished slug: lowercase letter, digit, or hyphen. -/
def isSlugChar (c : Char) : Bool := isLowerAZ c || isDigit09 c || c = '-'

/-- The regex replacement `\s+` → `'-'`: each maximal whitespace run becomes
one hyphen.  The boolean records whether the previous character was
whitespace (i.e. we are inside a run). -/
def wsToDashAux : Bool → List Char → List Char
  | _, [] => []
  | inRun, c :: rest =>
      if isWS c then
        if inRun then wsToDashAux true rest else '-' :: wsToDashAux true rest
      else c :: wsToDashAux false rest

/-- The regex replacement `-+` → `'-'`: each maximal hyphen run becomes one
hyphen.  The boolean records whether the previous character was a hyphen. -/
def dashCollapseAux : Bool → List Char → List Char
  | _, [] => []
  | prevDash, c :: rest =>
      if c = '-' then
        if prevDash then dashCollapseAux true rest
        else '-' :: dashCollapseAux true rest
      else c :: dashCollapseAux false rest

/-- The regex replacement `^-` → remove: drop one leading hyphen. -/
def trimLead : List Char → List Char
  | '-' :: rest => rest
  | l => l

/-- The regex replacement `/^-|-$/g` → remove: drop one leading and one
trailing hyphen (after hyphen-collapsing there is at most one of each). -/
def trimDashes (l : List Char) : List Char :=
  (trimLead (trimLead l).reverse).reverse

/-- The deterministic part of `createKey`: lowercase, remove characters
outside `[a-z0-9\s-]`, turn whitespace runs into hyphens, collapse hyphen
runs, trim boundary hyphens. -/
def slugOf (raw : String) : List Char :=
  trimDashes (dashCollapseAux false
    (wsToDashAux false ((raw.data.map Char.toLower).filter keepSlugSrc)))

/-- `utils.createKey` from app.js.  `ent` is the 32-bit value the fallback
branch draws from `crypto.getRandomValues`; `toString(16)` is lowercase hex,
embedded as `Nat.toDigits 16`. -/
def createKey (raw : String) (ent : Nat) : String :=
  let trimmed := slugOf raw
  if trimmed ≠ [] then String.mk trimmed
  else "id-" ++ String.mk (Nat.toDigits 16 ent)

/-- The regex replacement `\s+` → `' '` used when cleaning a raw name. -/
def wsCollapseAux : Bool → List Char → List Char
  | _, [] => []
  | inRun, c :: rest =>
      if isWS c then
        if inRun then wsCollapseAux true rest else ' ' :: wsCollapseAux true rest
      else c :: wsCollapseAux false rest

/-- `String.prototype.trim`: drop leading and trailing whitespace. -/
def trimWS (l : List Char) : List Char :=
  ((l.dropWhile isWS).reverse.dropWhile isWS).reverse

/-- `raw.normalize('NFC').replace(/\s+/g, ' ').trim()` (NFC is the identity
on the inputs considered, see the header). -/
def cleanRaw (raw : String) : String :=
  String.mk (trimWS (wsCollapseAux false raw.data))

/-- `Map.prototype.set`: overwrite in place when the key exists, else append.
`v` is the entry stored under `key`. -/
def mapSet (m : List NameEntry) (key : String) (v : NameEntry) : List NameEntry :=
  if key ∈ m.map NameEntry.key then
    m.map (fun it => if it.key = key then v else it)
  else m ++ [v]

/-- `new Map(existing.map(item => [item.key, item]))`: build the accumulating
map from the existing roster. -/
def mapFromEntries (existing : List NameEntry) : List NameEntry :=
  existing.foldl (fun m it => mapSet m it.key it) []

/-- The loop body of `mergeNames`; `i` indexes the entropy stream. -/
def mergeGo (ent : Nat → Nat) : List NameEntry → List String → Nat → List NameEntry
  | m, [], _ => m
  | m, raw :: rest, i =>
      let clean := cleanRaw raw
      if clean = "" then mergeGo ent m rest (i + 1)
      else
        let key := createKey clean (ent i)
        mergeGo ent (mapSet m key { raw := clean, key := key }) rest (i + 1)

/-- `utils.mergeNames` from app.js. -/
def mergeNames (existing : List NameEntry) (rawNames : List String) (ent : Nat → Nat) :
    List NameEntry :=
  mergeGo ent (mapFromEntries existing) rawNames 0

end utils

/-! ## rng: the Random Source -/

namespace rng

/-- `rng.index` from app.js.  `draw` is the unsigned 32-bit value obtained
from `crypto.getRandomValues`; `Math.floor(draw / 2^32 * max)` equals
`draw * max / 2^32` in exact integer arithmetic (the double-precision
products involved are exact for every bound the app can pass). -/
def index (max : Int) (draw : Nat) : Int :=
  if max ≤ 0 then 0 else ((draw * max.toNat / 2 ^ 32 : Nat) : Int)

end rng

/-! ## state: the State Store -/

/-- The store's owned data (`data` inside the `state` closure). `absentKeys`
is a JavaScript `Set`: an insertion-ordered duplicate-free list. -/
structure StoreData where
  classKey : String
  names : List NameEntry
  absentKeys : List String
  history : List HistEntry
  settings : Settings
deriving DecidableEq, Repr

/-- The serialized payload shape
`{version, classKey, names, absentKeys, history, settings}`. -/
structure Payload where
  version : Int
  classKey : String
  names : List NameEntry
  absentKeys : List String
  history : List HistEntry
  settings : Settings
deriving DecidableEq, Repr

namespace state

/-- `Set.prototype.add`: append the key unless already present. -/
def setAdd (l : List String) (k : String) : List String :=
  if k ∈ l then l else l ++ [k]

/-- `new Set(list)`: deduplicate, keeping the first occurrence's position. -/
def listToSet (l : List String) : List String :=
  l.foldl setAdd []

/-- The store's initial data. -/
def initialState : StoreData :=
  { classKey := DEFAULT_CLASS_KEY, names := [], absentKeys := [],
    history := [], settings := DEFAULT_SETTINGS }

/-- `state.setClassKey`: `key || DEFAULT_CLASS_KEY` (empty string is falsy). -/
def setClassKey (s : StoreData) (key : String) : StoreData :=
  { s with classKey := if key = "" then DEFAULT_CLASS_KEY else key }

/-- `state.updateFromStorage` on a (non-null) payload; the settings spread
`{...DEFAULT_SETTINGS, ...payload.settings}` is `payload.settings` because
the payload carries a full settings record. -/
def updateFromStorage (s : StoreData) (p : Payload) : StoreData :=
  { s with names := p.names, absentKeys := listToSet p.absentKeys,
           history := p.history, settings := p.settings }

/-- `state.setNames`: replace the roster and keep only absence keys that
occur among the new names' keys. -/
def setNames (s : StoreData) (newNames : List NameEntry) : StoreData :=
  { s with names := newNames,
           absentKeys :=
             s.absentKeys.filter (fun k => decide (k ∈ newNames.map NameEntry.key)) }

/-- `state.toggleAbsent`: add or delete the key in the absence set. -/
def toggleAbsent (s : StoreData) (key : String) (isAbsent : Bool) : StoreData :=
  { s with absentKeys :=
      if isAbsent then setAdd s.absentKeys key
      else s.absentKeys.filter (fun k => decide (k ≠ key)) }

/-- `state.clearAbsent`. -/
def clearAbsent (s : StoreData) : StoreData :=
  { s with absentKeys := [] }

/-- `state.addHistory`: prepend and truncate to 20. -/
def addHistory (s : StoreData) (entry : HistEntry) : StoreData :=
  { s with history := (entry :: s.history).take 20 }

/-- `state.resetHistory`. -/
def resetHistory (s : StoreData) : StoreData :=
  { s with history := [] }

/-- A partial settings object for `state.setSettings`. -/
structure SettingsPatch where
  spinMs : Option Int
  reducedMotionMode : Option String
  theme : Option String
deriving DecidableEq, Repr

/-- `state.setSettings`: shallow merge `{...data.settings, ...partial}`. -/
def setSettings (s : StoreData) (p : SettingsPatch) : StoreData :=
  { s with settings :=
      { spinMs := p.spinMs.getD s.settings.spinMs,
        reducedMotionMode := p.reducedMotionMode.getD s.settings.reducedMotionMode,
        theme := p.theme.getD s.settings.theme } }

/-- `state.getPresentNames`: roster entries whose key is not marked absent. -/
def getPresentNames (s : StoreData) : List NameEntry :=
  s.names.filter (fun n => decide (n.key ∉ s.absentKeys))

end state

/-! ## storage: the Persistence Codec -/

namespace storage

/-- A roster item of an untrusted imported document; `raw` is `some` exactly
when `typeof item.raw === 'string'`. -/
structure NameItem where
  raw : Option String
deriving DecidableEq, Repr

/-- The settings object of an untrusted imported document.  Each field is
`none` when absent from the object (so the `{...DEFAULT_SETTINGS, ...}`
spread keeps the default).  For `spinMs` the inner option is the result of
the `Number(...)` coercion: `some n` for a finite value, `none` otherwise. -/
structure SettingsDoc where
  spinMs : Option (Option Int)
  reducedMotionMode : Option String
  theme : Option String
deriving DecidableEq, Repr

/-- A parsed imported document (the fields `importPayload` reads).
`classKey` uses `""` for a missing/falsy field; a `none` list field means
the field is missing or fails `Array.isArray`. -/
structure ImportDoc where
  version : Option Int
  classKey : String
  names : Option (List NameItem)
  absentKeys : Option (List String)
  history : Option (List HistEntry)
  settings : Option SettingsDoc
deriving DecidableEq, Repr

/-- The outcome of `JSON.parse` on the imported text, as far as
`storage.parse` inspects it. -/
inductive JsonValue where
  | malformed
  | nonObject
  | obj (d : ImportDoc)
deriving DecidableEq, Repr

/-- The error taxonomy of the import path: malformed syntax / non-object
data, and unsupported schema version. -/
inductive ImportError where
  | parseError
  | versionError
deriving DecidableEq, Repr

/-- `storage.parse`: reject malformed JSON and non-objects, reject a version
field different from `APP_VERSION` (strict `!==` against the number 1);
`migrate` is the identity for a matching version. -/
def parse (j : JsonValue) : Except ImportError ImportDoc :=
  match j with
  | .malformed => .error .parseError
  | .nonObject => .error .parseError
  | .obj d =>
      if d.version = some APP_VERSION then .ok d else .error .versionError

/-- The `rawNames.forEach` loop of `importPayload`: rebuild roster entries
from scratch, discarding empty raws and keys already seen (first wins).
`i` indexes the entropy stream for `createKey`'s fallback branch. -/
def sanitizeGo (ent : Nat → Nat) :
    List NameItem → Nat → List NameEntry × List String → List NameEntry × List String
  | [], _, acc => acc
  | item :: rest, i, (sanitized, seen) =>
      let raw := match item.raw with
        | some r => utils.cleanRaw r
        | none => ""
      if raw = "" then sanitizeGo ent rest (i + 1) (sanitized, seen)
      else
        let key := utils.createKey raw (ent i)
        if key ∈ seen then sanitizeGo ent rest (i + 1) (sanitized, seen)
        else sanitizeGo ent rest (i + 1) (sanitized ++ [{ raw := raw, key := key }], seen ++ [key])

/-- The history `.map` of `importPayload`: keep `key` and `ts`, replace a
falsy `id` by a fresh `crypto.randomUUID()` value. -/
def histGo (fresh : Nat → String) : List HistEntry → Nat → List HistEntry
  | [], _ => []
  | e :: rest, i =>
      { key := e.key, ts := e.ts, id := if e.id = "" then fresh i else e.id } ::
        histGo fresh rest (i + 1)

/-- The settings sanitization of `importPayload`: spread the defaults, keep
`spinMs` whenever `Number(spinMs)` is finite (no range check), and default
the two enumerated fields when outside their allowed values. -/
def importSettings (sd : Option SettingsDoc) : Settings :=
  let spreadSpin : Option Int :=
    match sd with
    | none => some DEFAULT_SETTINGS.spinMs
    | some d =>
        match d.spinMs with
        | none => some DEFAULT_SETTINGS.spinMs
        | some v => v
  let spinMs := match spreadSpin with
    | some n => n
    | none => DEFAULT_SETTINGS.spinMs
  let rm0 := match sd with
    | none => DEFAULT_SETTINGS.reducedMotionMode
    | some d => d.reducedMotionMode.getD DEFAULT_SETTINGS.reducedMotionMode
  let rm := if rm0 = "auto" ∨ rm0 = "on" ∨ rm0 = "off" then rm0
    else DEFAULT_SETTINGS.reducedMotionMode
  let th0 := match sd with
    | none => DEFAULT_SETTINGS.theme
    | some d => d.theme.getD DEFAULT_SETTINGS.theme
  let th := if th0 = "auto" ∨ th0 = "light" ∨ th0 = "dark" then th0
    else DEFAULT_SETTINGS.theme
  { spinMs := spinMs, reducedMotionMode := rm, theme := th }

/-- The sanitization performed by `importPayload` after a successful parse. -/
def sanitizeDoc (tsValid : String → Bool) (fresh : Nat → String) (ent : Nat → Nat)
    (parsed : ImportDoc) : Payload :=
  let rawNames := parsed.names.getD []
  let pair := sanitizeGo ent rawNames 0 ([], [])
  let sanitizedNames := pair.1
  let seenKeys := pair.2
  let absentKeys := match parsed.absentKeys with
    | none => []
    | some ks => ks.filter (fun k => decide (k ∈ seenKeys))
  let history := match parsed.history with
    | none => []
    | some hs =>
        ((histGo fresh hs 0).filter
          (fun e => decide (e.key ∈ seenKeys) && tsValid e.ts)).take 20
  { version := APP_VERSION,
    classKey := if parsed.classKey = "" then DEFAULT_CLASS_KEY else parsed.classKey,
    names := sanitizedNames,
    absentKeys := absentKeys,
    history := history,
    settings := importSettings parsed.settings }

/-- `storage.importPayload`: parse, then sanitize the untrusted document. -/
def importPayload (tsValid : String → Bool) (fresh : Nat → String) (ent : Nat → Nat)
    (j : JsonValue) : Except ImportError Payload :=
  (parse j).map (sanitizeDoc tsValid fresh ent)

/-- `storage.exportPayload`: the snapshot written verbatim with the current
version number. -/
def exportPayload (s : StoreData) : Payload :=
  { version := APP_VERSION, classKey := s.classKey, names := s.names,
    absentKeys := s.absentKeys, history := s.history, settings := s.settings }

/-- The exported payload as the imported-document view obtained after
`JSON.parse(JSON.stringify(payload))` (the identity on this plain data). -/
def exportDoc (p : Payload) : ImportDoc :=
  { version := some p.version,
    classKey := p.classKey,
    names := some (p.names.map (fun n => { raw := some n.raw })),
    absentKeys := some p.absentKeys,
    history := some p.history,
    settings := some
      { spinMs := some (some p.settings.spinMs),
        reducedMotionMode := some p.settings.reducedMotionMode,
        theme := some p.settings.theme } }

end storage

/-! ## ui: draw controller and import handler -/

/-- The mutable flags of the UI layer relevant to the draw path. -/
structure AppState where
  store : StoreData
  isDrawing : Bool
  spinning : Bool
  lastWinnerKey : Option String
deriving DecidableEq, Repr

namespace ui

/-- `updateButtons`: the draw button is disabled when fewer than two names
are present. -/
def drawButtonDisabled (s : StoreData) : Bool :=
  (state.getPresentNames s).length ≤ 1

/-- `handleDraw`, run to completion with the draw `x` taken from
`crypto.getRandomValues`, the current timestamp `now` and the fresh
identifier `id`.  `wheel.spinTo` resolves with `currentNames[index]`
(`none`, i.e. `undefined`, when the index is out of range), and the
`finally` block restores `isDrawing`/`lockInteractions`, so the flags end
as they started. -/
def handleDraw (s : AppState) (x : Nat) (now id : String) : AppState :=
  if s.isDrawing || s.spinning then s
  else
    let present := state.getPresentNames s.store
    if present.length = 0 then s
    else
      let i := rng.index (present.length : Int) x
      match present.get? i.toNat with
      | none => s
      | some sel =>
          { s with lastWinnerKey := some sel.key,
                   store := state.addHistory s.store
                     { key := sel.key, ts := now, id := id } }

/-- The success/failure halves of `handleJsonFileChange` around
`storage.importPayload`: on error the alert leaves state untouched; on
success the class key is set and the payload replaces the state, with the
winner taken from the head of the imported history. -/
def handleImport (tsValid : String → Bool) (fresh : Nat → String) (ent : Nat → Nat)
    (s : StoreData) (winner : Option String) (j : storage.JsonValue) :
    StoreData × Option String :=
  match storage.importPayload tsValid fresh ent j with
  | .error _ => (s, winner)
  | .ok p =>
      let w := match p.history with
        | [] => none
        | e :: _ => some e.key
      (state.updateFromStorage (state.setClassKey s p.classKey) p, w)

end ui

/-! ## Derived notions used by the statements -/

/-- Ceiling division on naturals, `⌈a / n⌉ = (a + (n - 1)) / n`. -/
def cdiv (a n : Nat) : Nat := (a + (n - 1)) / n

/-- The number of raw 32-bit draws that make `rng.index` produce the value
`v` for the bound `N`. -/
def drawCount (N v : Nat) : Nat :=
  ((Finset.range (2 ^ 32)).filter (fun x => rng.index (N : Int) x = (v : Int))).card

/-- The Absence Set invariant: every absence key references a roster entry. -/
def absenceInv (s : StoreData) : Prop :=
  ∀ k ∈ s.absentKeys, k ∈ s.names.map NameEntry.key

instance (s : StoreData) : Decidable (absenceInv s) :=
  inferInstanceAs (Decidable (∀ k ∈ s.absentKeys, k ∈ s.names.map NameEntry.key))

instance {ε α : Type} [DecidableEq ε] [DecidableEq α] : DecidableEq (Except ε α) := fun x y =>
  match x, y with
  | .error a, .error b => decidable_of_iff (a = b) (by simp)
  | .error _, .ok _ => isFalse (by simp)
  | .ok _, .error _ => isFalse (by simp)
  | .ok a, .ok b => decidable_of_iff (a = b) (by simp)

/-- Two adjacent characters are not both hyphens. -/
def noDD (a b : Char) : Prop := ¬(a = '-' ∧ b = '-')

instance (a b : Char) : Decidable (noDD a b) :=
  inferInstanceAs (Decidable (¬(a = '-' ∧ b = '-')))

/-- The shape of a non-fallback key: non-empty, only lowercase letters,
digits and hyphens, no adjacent hyphens, no boundary hyphen. -/
def isSlug (l : List Char) : Prop :=
  l ≠ [] ∧ (∀ c ∈ l, utils.isSlugChar c = true) ∧
    l.Chain' noDD ∧ l.head? ≠ some '-' ∧ l.getLast? ≠ some '-'

/-! ## Concrete fixtures for counterexamples and witnesses -/

/-- An app state with exactly one present name and no draw in progress. -/
def oneNameApp : AppState :=
  { store := { classKey := "trida-1", names := [{ raw := "a", key := "a" }],
               absentKeys := [], history := [], settings := DEFAULT_SETTINGS },
    isDrawing := false, spinning := false, lastWinnerKey := none }

/-- An app state in the middle of a draw. -/
def drawingApp : AppState :=
  { store := state.initialState, isDrawing := true, spinning := false,
    lastWinnerKey := none }

/-- A store state with one name, used to instantiate invariant theorems. -/
def demoState : StoreData :=
  { classKey := "trida-1", names := [{ raw := "a", key := "a" }],
    absentKeys := [], history := [], settings := DEFAULT_SETTINGS }

/-- A version-1 document whose `spinMs` is the finite number 50. -/
def spinDoc : storage.ImportDoc :=
  { version := some 1, classKey := "c", names := some [], absentKeys := some [],
    history := some [],
    settings := some { spinMs := some (some 50), reducedMotionMode := some "auto",
                       theme := some "auto" } }

/-- The payload `importPayload` produces for `spinDoc`. -/
def spinResult : Payload :=
  { version := 1, classKey := "c", names := [], absentKeys := [], history := [],
    settings := { spinMs := 50, reducedMotionMode := "auto", theme := "auto" } }

/-- A document carrying schema version 0. -/
def v0Doc : storage.ImportDoc :=
  { version := some 0, classKey := "c", names := some [], absentKeys := some [],
    history := some [], settings := none }

/-- A store snapshot produced by store operations whose history references a
name that was later removed from the roster: add `a` and `b`, record a draw
of `b`, then replace the roster by `a` alone. -/
def staleState : StoreData :=
  state.setNames
    (state.addHistory
      (state.setNames state.initialState
        [{ raw := "a", key := "a" }, { raw := "b", key := "b" }])
      { key := "b", ts := "2024-01-07T08:00:00.000Z", id := "u1" })
    [{ raw := "a", key := "a" }]

/-- The payload the round trip produces for `staleState`: the stale history
entry is dropped. -/
def staleResult : Payload :=
  { version := 1, classKey := "trida-1", names := [{ raw := "a", key := "a" }],
    absentKeys := [], history := [], settings := DEFAULT_SETTINGS }

/-- A well-formed store snapshot used to instantiate the round-trip theorem:
derived keys, a valid absence key, a valid history entry. -/
def demoSnap : StoreData :=
  { classKey := "trida-1", names := [{ raw := "anna", key := "anna" }],
    absentKeys := ["anna"],
    history := [{ key := "anna", ts := "2024-01-07T08:00:00.000Z", id := "u1" }],
    settings := DEFAULT_SETTINGS }

/-! ## Basic facts about the Random Source -/

theorem index_nonneg (max : Int) (x : Nat) : 0 ≤ rng.index max x := by
  unfold rng.index
  split
  · exact le_refl 0
  · exact Int.natCast_nonneg _

theorem index_lt (max : Int) (x : Nat) (hm : 0 < max) (hx : x < 2 ^ 32) :
    rng.index max x < max := by
  unfold rng.index
  rw [if_neg (by omega)]
  have ht : 0 < max.toNat := by omega
  have h : x * max.toNat / 2 ^ 32 < max.toNat :=
    Nat.div_lt_of_lt_mul (by calc
      x * max.toNat < 2 ^ 32 * max.toNat := by
        exact mul_lt_mul_of_pos_right hx ht)
  calc ((x * max.toNat / 2 ^ 32 : Nat) : Int) < (max.toNat : Int) := by exact_mod_cast h
    _ = max := Int.toNat_of_nonneg hm.le

/-! ## C10 -/

/-- C10 (confirmed): `rng.index` is total over all integer bounds: for every
`max ≤ 0` it returns 0 independently of the entropy draw, and for every
positive `max` the result lies in `[0, max)`, so no caller receives a
negative or out-of-range index. -/
theorem C10_theorem (max : Int) (x : Nat) (hx : x < 2 ^ 32) :
    (max ≤ 0 → rng.index max x = 0) ∧
    (max ≤ 0 → ∀ y : Nat, rng.index max x = rng.index max y) ∧
    (0 < max → 0 ≤ rng.index max x ∧ rng.index max x < max) := by
  refine ⟨fun h => ?_, fun h y => ?_, fun h => ⟨index_nonneg max x, index_lt max x h hx⟩⟩
  · simp [rng.index, h]
  · simp [rng.index, h]

/-- Witness for C10 at `max = -5`, `x = 7`. -/
theorem C10_witness :
    ((-5 : Int) ≤ 0 → rng.index (-5) 7 = 0) ∧
    ((-5 : Int) ≤ 0 → ∀ y : Nat, rng.index (-5) 7 = rng.index (-5) y) ∧
    (0 < (-5 : Int) → 0 ≤ rng.index (-5) 7 ∧ rng.index (-5) 7 < -5) :=
  C10_theorem (-5) 7 (by norm_num)

/-! ## C9 -/

theorem take_append_take {α : Type} (a x : List α) (n : Nat) :
    (a ++ x.take n).take n = (a ++ x).take n := by
  rw [List.take_append_eq_append_take, List.take_append_eq_append_take, List.take_take,
    Nat.min_eq_left (Nat.sub_le n a.length)]

theorem addHistory_foldl (l : List HistEntry) :
    ∀ s : StoreData, s.history.length ≤ 20 →
      (l.foldl state.addHistory s).history = (l.reverse ++ s.history).take 20 := by
  induction l with
  | nil =>
      intro s hs
      simp only [List.foldl_nil, List.nil_append]
      exact (List.take_of_length_le hs).symm
  | cons e rest ih =>
      intro s hs
      have hlen : (state.addHistory s e).history.length ≤ 20 := by
        simp only [state.addHistory, List.length_take]
        exact min_le_left _ _
      rw [List.foldl_cons, ih (state.addHistory s e) hlen]
      show (rest.reverse ++ ((e :: s.history).take 20)).take 20 = _
      rw [take_append_take, List.reverse_cons, List.append_assoc]
      rfl

/-- C9 (confirmed): after any sequence of `addHistory` calls from the
initial state the history is the most-recent-first reversal of the appended
entries truncated to 20, hence never longer than 20; each call prepends its
entry and drops everything beyond 20. -/
theorem C9_theorem (entries : List HistEntry) :
    (entries.foldl state.addHistory state.initialState).history = entries.reverse.take 20 ∧
    (entries.foldl state.addHistory state.initialState).history.length ≤ 20 ∧
    ∀ (s : StoreData) (e : HistEntry),
      (state.addHistory s e).history = (e :: s.history).take 20 := by
  refine ⟨?_, ?_, fun s e => rfl⟩
  · rw [addHistory_foldl entries state.initialState (by simp [state.initialState])]
    simp [state.initialState]
  · rw [addHistory_foldl entries state.initialState (by simp [state.initialState])]
    simp only [List.length_take]
    exact min_le_left _ _

/-! ## C4 -/

/-- C4 (corrected): the claim fails as stated — `toggleAbsent` on a key that
is not in the roster puts it into the absence set. -/
theorem C4_counterexample :
    ¬ absenceInv (state.toggleAbsent state.initialState "x" true) := by decide

/-- C4 (amended): `setNames` establishes the Absence Set invariant
unconditionally — for every store state, including ones already violating
it, it prunes the absence set to the new roster's keys — and so does
`clearAbsent`; `toggleAbsent` preserves the invariant provided the key it
adds belongs to the roster, which is the only way the UI invokes it. -/
theorem C4_theorem (s : StoreData) (newNames : List NameEntry) (k : String) (b : Bool) :
    absenceInv (state.setNames s newNames) ∧
    absenceInv (state.clearAbsent s) ∧
    (absenceInv s → (b = true → k ∈ s.names.map NameEntry.key) →
      absenceInv (state.toggleAbsent s k b)) := by
  refine ⟨?_, ?_, ?_⟩
  · intro k2 hk2
    simp only [state.setNames, List.mem_filter, decide_eq_true_eq] at hk2
    exact hk2.2
  · intro k2 hk2
    simp [state.clearAbsent] at hk2
  · intro hs hk k2 hk2
    show k2 ∈ s.names.map NameEntry.key
    cases b with
    | false =>
        simp only [state.toggleAbsent] at hk2
        rw [if_neg (by simp)] at hk2
        rw [List.mem_filter] at hk2
        exact hs k2 hk2.1
    | true =>
        simp only [state.toggleAbsent] at hk2
        rw [if_pos (by simp)] at hk2
        simp only [state.setAdd] at hk2
        by_cases hmem : k ∈ s.absentKeys
        · rw [if_pos hmem] at hk2
          exact hs k2 hk2
        · rw [if_neg hmem, List.mem_append, List.mem_singleton] at hk2
          rcases hk2 with hk2 | rfl
          · exact hs k2 hk2
          · exact hk rfl

/-- Witness for C4 on a one-name store, with the toggle hypotheses
discharged at the roster key `"a"`. -/
theorem C4_witness :
    (absenceInv (state.setNames demoState [{ raw := "a", key := "a" }]) ∧
      absenceInv (state.clearAbsent demoState) ∧
      (absenceInv demoState →
        (true = true → "a" ∈ demoState.names.map NameEntry.key) →
        absenceInv (state.toggleAbsent demoState "a" true))) ∧
    absenceInv (state.toggleAbsent demoState "a" true) :=
  ⟨ C4_theorem demoState [{ raw := "a", key := "a" }] "a" true,
    ( C4_theorem demoState [{ raw := "a", key := "a" }] "a" true).2.2 (by decide)
      (fun _ => by decide)⟩

/-! ## C2 -/

/-- C2 (corrected): the claim fails as stated — with exactly one present
name (fewer than 2) `handleDraw` is not a no-op: it records a winner and
appends a history entry.  The guard in `handleDraw` only rejects an empty
present set; the two-name threshold exists solely in `updateButtons`. -/
theorem C2_counterexample :
    (state.getPresentNames oneNameApp.store).length = 1 ∧
    ui.handleDraw oneNameApp 0 "t" "u" ≠ oneNameApp := by decide

/-- C2 (amended): a draw request is a no-op whenever a draw is already in
progress, the wheel is still spinning, or no present name exists; the
at-least-two-present-names condition is enforced only by disabling the draw
button, not by `handleDraw` itself. -/
theorem C2_theorem (s : AppState) (x : Nat) (now id : String)
    (h : s.isDrawing = true ∨ s.spinning = true ∨ state.getPresentNames s.store = []) :
    ui.handleDraw s x now id = s := by
  by_cases hd : (s.isDrawing || s.spinning) = true
  · simp [ui.handleDraw, hd]
  · have hpres : state.getPresentNames s.store = [] := by
      rcases h with h | h | h
      · simp [h] at hd
      · simp [h] at hd
      · exact h
    simp [ui.handleDraw, hd, hpres]

/-- Witness for C2 on a state whose draw is in progress. -/
theorem C2_witness : ui.handleDraw drawingApp 0 "t" "u" = drawingApp :=
  C2_theorem drawingApp 0 "t" "u" (Or.inl rfl)

/-! ## C8 -/

/-- C8 (confirmed): a document whose version differs from the schema
version is rejected with the version error, and the import handler leaves
the store and the winner untouched. -/
theorem C8_theorem (tsValid : String → Bool) (fresh : Nat → String) (ent : Nat → Nat)
    (d : storage.ImportDoc) (s : StoreData) (w : Option String)
    (h : d.version ≠ some 1) :
    storage.importPayload tsValid fresh ent (.obj d) = .error .versionError ∧
    ui.handleImport tsValid fresh ent s w (.obj d) = (s, w) := by
  have hp : storage.parse (.obj d) = .error .versionError := by
    simp [storage.parse, APP_VERSION, h]
  constructor
  · simp [storage.importPayload, hp, Except.map]
  · simp [ui.handleImport, storage.importPayload, hp, Except.map]

/-- Witness for C8 at schema version 0. -/
theorem C8_witness :
    storage.importPayload (fun _ => true) (fun _ => "u") (fun _ => 0) (.obj v0Doc) =
      .error .versionError ∧
    ui.handleImport (fun _ => true) (fun _ => "u") (fun _ => 0) state.initialState none
      (.obj v0Doc) = (state.initialState, none) :=
  C8_theorem (fun _ => true) (fun _ => "u") (fun _ => 0) v0Doc state.initialState none
    (by decide)

/-! ## C3 -/

theorem importSettings_enum (sd : Option storage.SettingsDoc) :
    (storage.importSettings sd).reducedMotionMode ∈ (["auto", "on", "off"] : List String) ∧
    (storage.importSettings sd).theme ∈ (["auto", "light", "dark"] : List String) := by
  unfold storage.importSettings
  cases sd with
  | none => exact ⟨by simp [DEFAULT_SETTINGS], by simp [DEFAULT_SETTINGS]⟩
  | some d =>
      refine ⟨?_, ?_⟩
      · dsimp only
        split
        · next h => simpa using h
        · simp [DEFAULT_SETTINGS]
      · dsimp only
        split
        · next h => simpa using h
        · simp [DEFAULT_SETTINGS]

/-- C3 (corrected): the claim fails as stated — an imported `spinMs` of 50
(a finite number outside `[500, 10000]`) is kept verbatim, not replaced by
the default; `importPayload` performs no range check on `spinMs`. -/
theorem C3_counterexample :
    storage.importPayload (fun _ => true) (fun _ => "u") (fun _ => 0) (.obj spinDoc) =
      .ok spinResult ∧
    spinResult.settings.spinMs = 50 ∧
    ¬(500 ≤ spinResult.settings.spinMs ∧ spinResult.settings.spinMs ≤ 10000) := by
  refine ⟨?_, by decide, by decide⟩
  decide

/-- C3 (amended): for a version-matching document, the sanitized settings
default `reducedMotionMode` and `theme` whenever they are outside their
enumerations, but `spinMs` is defaulted only when `Number(spinMs)` is not
finite; any finite imported value — in range or not — is kept verbatim. -/
theorem C3_theorem (tsValid : String → Bool) (fresh : Nat → String) (ent : Nat → Nat)
    (d : storage.ImportDoc) (sd : storage.SettingsDoc) (n : Int)
    (hv : d.version = some 1) (hs : d.settings = some sd) :
    storage.importPayload tsValid fresh ent (.obj d) =
      .ok (storage.sanitizeDoc tsValid fresh ent d) ∧
    (storage.sanitizeDoc tsValid fresh ent d).settings.reducedMotionMode ∈
      (["auto", "on", "off"] : List String) ∧
    (storage.sanitizeDoc tsValid fresh ent d).settings.theme ∈
      (["auto", "light", "dark"] : List String) ∧
    (sd.spinMs = some (some n) →
      (storage.sanitizeDoc tsValid fresh ent d).settings.spinMs = n) ∧
    ((sd.spinMs = none ∨ sd.spinMs = some none) →
      (storage.sanitizeDoc tsValid fresh ent d).settings.spinMs = DEFAULT_SETTINGS.spinMs) := by
  have hsettings : (storage.sanitizeDoc tsValid fresh ent d).settings =
      storage.importSettings d.settings := rfl
  refine ⟨?_, ?_, ?_, ?_, ?_⟩
  · simp [storage.importPayload, storage.parse, APP_VERSION, hv, Except.map]
  · rw [hsettings]; exact (importSettings_enum d.settings).1
  · rw [hsettings]; exact (importSettings_enum d.settings).2
  · intro hn
    rw [hsettings, hs]
    simp [storage.importSettings, hn]
  · intro hn
    rw [hsettings, hs]
    rcases hn with hn | hn <;> simp [storage.importSettings, hn]

/-- Witness for C3 on a version-1 document whose `spinMs` is the finite
number 700. -/
theorem C3_witness :
    storage.importPayload (fun _ => true) (fun _ => "u") (fun _ => 0)
      (.obj { version := some 1, classKey := "c", names := some [],
              absentKeys := some [], history := some [],
              settings := some { spinMs := some (some 700),
                                 reducedMotionMode := some "on",
                                 theme := some "dark" } }) =
      .ok (storage.sanitizeDoc (fun _ => true) (fun _ => "u") (fun _ => 0)
            { version := some 1, classKey := "c", names := some [],
              absentKeys := some [], history := some [],
              settings := some { spinMs := some (some 700),
                                 reducedMotionMode := some "on",
                                 theme := some "dark" } }) ∧
    (storage.sanitizeDoc (fun _ => true) (fun _ => "u") (fun _ => 0)
        { version := some 1, classKey := "c", names := some [],
          absentKeys := some [], history := some [],
          settings := some { spinMs := some (some 700),
                             reducedMotionMode := some "on",
                             theme := some "dark" } }).settings.reducedMotionMode ∈
      (["auto", "on", "off"] : List String) ∧
    (storage.sanitizeDoc (fun _ => true) (fun _ => "u") (fun _ => 0)
        { version := some 1, classKey := "c", names := some [],
          absentKeys := some [], history := some [],
          settings := some { spinMs := some (some 700),
                             reducedMotionMode := some "on",
                             theme := some "dark" } }).settings.theme ∈
      (["auto", "light", "dark"] : List String) ∧
    ((some (some 700) : Option (Option Int)) = some (some 700) →
      (storage.sanitizeDoc (fun _ => true) (fun _ => "u") (fun _ => 0)
          { version := some 1, classKey := "c", names := some [],
            absentKeys := some [], history := some [],
            settings := some { spinMs := some (some 700),
                               reducedMotionMode := some "on",
                               theme := some "dark" } }).settings.spinMs = 700) ∧
    (((some (some 700) : Option (Option Int)) = none ∨
        (some (some 700) : Option (Option Int)) = some none) →
      (storage.sanitizeDoc (fun _ => true) (fun _ => "u") (fun _ => 0)
          { version := some 1, classKey := "c", names := some [],
            absentKeys := some [], history := some [],
            settings := some { spinMs := some (some 700),
                               reducedMotionMode := some "on",
                               theme := some "dark" } }).settings.spinMs =
        DEFAULT_SETTINGS.spinMs) :=
  C3_theorem (fun _ => true) (fun _ => "u") (fun _ => 0)
    { version := some 1, classKey := "c", names := some [], absentKeys := some [],
      history := some [],
      settings := some { spinMs := some (some 700), reducedMotionMode := some "on",
                         theme := some "dark" } }
    { spinMs := some (some 700), reducedMotionMode := some "on", theme := some "dark" }
    700 (by decide) (by decide)

/-! ## C1 -/

theorem cdiv_le_iff (a x n : Nat) (hn : 0 < n) : cdiv a n ≤ x ↔ a ≤ x * n := by
  unfold cdiv
  rw [← Nat.lt_succ_iff, Nat.div_lt_iff_lt_mul hn, Nat.succ_mul]
  generalize x * n = m
  omega

theorem lt_cdiv_iff (b x n : Nat) (hn : 0 < n) : x < cdiv b n ↔ x * n < b := by
  rw [← not_le, ← not_le]
  exact not_congr (cdiv_le_iff b x n hn)

theorem div_eq_iff_between (a v k : Nat) (hk : 0 < k) :
    a / k = v ↔ v * k ≤ a ∧ a < (v + 1) * k := by
  constructor
  · rintro rfl
    have h1 := Nat.div_add_mod' a k
    have h2 := Nat.mod_lt a hk
    rw [add_one_mul]
    omega
  · rintro ⟨h1, h2⟩
    have hle : v ≤ a / k := (Nat.le_div_iff_mul_le hk).mpr h1
    have hlt : a / k < v + 1 := (Nat.div_lt_iff_lt_mul hk).mpr h2
    omega

theorem filter_eq_Ico (N v : Nat) (hN : 0 < N) (hv : v < N) :
    (Finset.range (2 ^ 32)).filter (fun x => x * N / 2 ^ 32 = v) =
      Finset.Ico (cdiv (v * 2 ^ 32) N) (cdiv ((v + 1) * 2 ^ 32) N) := by
  ext x
  simp only [Finset.mem_filter, Finset.mem_range, Finset.mem_Ico]
  rw [div_eq_iff_between _ _ _ (by positivity), cdiv_le_iff _ _ _ hN, lt_cdiv_iff _ _ _ hN]
  constructor
  · rintro ⟨_, h1, h2⟩
    exact ⟨h1, h2⟩
  · rintro ⟨h1, h2⟩
    refine ⟨?_, h1, h2⟩
    have hb : (v + 1) * 2 ^ 32 ≤ N * 2 ^ 32 := Nat.mul_le_mul_right _ hv
    have hx : x * N < N * 2 ^ 32 := lt_of_lt_of_le h2 hb
    rw [mul_comm N (2 ^ 32)] at hx
    exact lt_of_mul_lt_mul_right hx (Nat.zero_le N)

theorem index_eq_nat_div (N : Nat) (hN : 0 < N) (x : Nat) :
    rng.index (N : Int) x = ((x * N / 2 ^ 32 : Nat) : Int) := by
  unfold rng.index
  rw [if_neg (not_le.mpr (by exact_mod_cast hN)), Int.toNat_natCast]

theorem drawCount_eq (N v : Nat) (hN : 0 < N) (hv : v < N) :
    drawCount N v = cdiv ((v + 1) * 2 ^ 32) N - cdiv (v * 2 ^ 32) N := by
  unfold drawCount
  rw [show ((Finset.range (2 ^ 32)).filter (fun x => rng.index (N : Int) x = (v : Int))) =
        ((Finset.range (2 ^ 32)).filter (fun x => x * N / 2 ^ 32 = v)) from
      Finset.filter_congr (fun x _ => by
        rw [index_eq_nat_div N hN x, Nat.cast_inj])]
  rw [filter_eq_Ico N v hN hv, Nat.card_Ico]

/-- C1 (corrected): the claim fails as stated — `rng.index` scales the raw
32-bit draw by `floor(draw / 2^32 * N)`, which is not exactly uniform when
`N` does not divide `2^32`: for `N = 3` the value 0 is produced by one more
raw draw than the value 1. -/
theorem C1_counterexample : drawCount 3 1 ≠ drawCount 3 0 := by
  rw [drawCount_eq 3 1 (by norm_num) (by norm_num),
    drawCount_eq 3 0 (by norm_num) (by norm_num)]
  decide

theorem drawCount_bounds (N v : Nat) (hN : 0 < N) (hv : v < N) :
    2 ^ 32 / N ≤ drawCount N v ∧ drawCount N v ≤ cdiv (2 ^ 32) N := by
  rw [drawCount_eq N v hN hv]
  have key1 : ∀ a : Nat, cdiv a N + 2 ^ 32 / N ≤ cdiv (a + 2 ^ 32) N := by
    intro a
    unfold cdiv
    calc (a + (N - 1)) / N + 2 ^ 32 / N = (a + (N - 1) + 2 ^ 32 / N * N) / N := by
          rw [Nat.add_mul_div_right _ _ hN]
      _ ≤ (a + 2 ^ 32 + (N - 1)) / N := by
          apply Nat.div_le_div_right
          have := Nat.div_mul_le_self (2 ^ 32) N
          omega
  have key2 : ∀ a : Nat, cdiv (a + 2 ^ 32) N ≤ cdiv a N + cdiv (2 ^ 32) N := by
    intro a
    unfold cdiv
    have hM : 2 ^ 32 ≤ (2 ^ 32 + (N - 1)) / N * N := by
      have h1 := Nat.div_add_mod' (2 ^ 32 + (N - 1)) N
      have h2 := Nat.mod_lt (2 ^ 32 + (N - 1)) hN
      omega
    calc (a + 2 ^ 32 + (N - 1)) / N ≤ (a + (N - 1) + (2 ^ 32 + (N - 1)) / N * N) / N := by
          apply Nat.div_le_div_right
          omega
      _ = (a + (N - 1)) / N + (2 ^ 32 + (N - 1)) / N := Nat.add_mul_div_right _ _ hN
  have hsplit : (v + 1) * 2 ^ 32 = v * 2 ^ 32 + 2 ^ 32 := by ring
  rw [hsplit]
  constructor
  · have := key1 (v * 2 ^ 32)
    omega
  · have := key2 (v * 2 ^ 32)
    omega

/-- C1 (amended): for every bound `N ≥ 1` and every raw draw, `rng.index`
returns a value in `[0, N)`, and for bound 0 it returns 0; the distribution
over the `2^32` raw draws is uniform only up to rounding: every value in
`[0, N)` is produced by at least `⌊2^32 / N⌋` and at most `⌈2^32 / N⌉` raw
draws (exact uniformity holds only when `N` divides `2^32`). -/
theorem C1_theorem (N : Nat) (hN : 1 ≤ N) (x : Nat) (hx : x < 2 ^ 32) (v : Nat) (hv : v < N) :
    (0 ≤ rng.index (N : Int) x ∧ rng.index (N : Int) x < (N : Int)) ∧
    rng.index 0 x = 0 ∧
    2 ^ 32 / N ≤ drawCount N v ∧ drawCount N v ≤ cdiv (2 ^ 32) N := by
  refine ⟨⟨index_nonneg _ x, index_lt _ x (by exact_mod_cast hN) hx⟩, ?_,
    drawCount_bounds N v hN hv⟩
  simp [rng.index]

/-- Witness for C1 at `N = 3`, `x = 0`, `v = 0`. -/
theorem C1_witness :
    (0 ≤ rng.index ((3 : Nat) : Int) 0 ∧ rng.index ((3 : Nat) : Int) 0 < ((3 : Nat) : Int)) ∧
    rng.index 0 0 = 0 ∧
    2 ^ 32 / 3 ≤ drawCount 3 0 ∧ drawCount 3 0 ≤ cdiv (2 ^ 32) 3 :=
  C1_theorem 3 (by norm_num) 0 (by norm_num) 0 (by norm_num)

/-! ## C5 -/

theorem noDD_symm {a b : Char} (h : noDD a b) : noDD b a := by
  unfold noDD at *
  tauto

theorem wsToDashAux_chars (l : List Char) :
    ∀ b : Bool, (∀ c ∈ l, utils.keepSlugSrc c = true) →
      ∀ c ∈ utils.wsToDashAux b l, utils.isSlugChar c = true := by
  induction l with
  | nil => intro b _ c hc; simp [utils.wsToDashAux] at hc
  | cons a rest ih =>
      intro b hl c hc
      have ha := hl a (List.mem_cons_self a rest)
      have hrest : ∀ c ∈ rest, utils.keepSlugSrc c = true :=
        fun c hc => hl c (List.mem_cons_of_mem a hc)
      by_cases hws : utils.isWS a = true
      · cases b with
        | true =>
            rw [show utils.wsToDashAux true (a :: rest) = utils.wsToDashAux true rest by
              simp [utils.wsToDashAux, hws]] at hc
            exact ih true hrest c hc
        | false =>
            rw [show utils.wsToDashAux false (a :: rest) =
                  '-' :: utils.wsToDashAux true rest by
              simp [utils.wsToDashAux, hws]] at hc
            rcases List.mem_cons.mp hc with rfl | hc
            · decide
            · exact ih true hrest c hc
      · rw [show utils.wsToDashAux b (a :: rest) = a :: utils.wsToDashAux false rest by
          simp [utils.wsToDashAux, hws]] at hc
        rcases List.mem_cons.mp hc with rfl | hc
        · rw [Bool.not_eq_true] at hws
          simpa [utils.keepSlugSrc, utils.isSlugChar, hws] using ha
        · exact ih false hrest c hc

theorem dashCollapseAux_subset (l : List Char) :
    ∀ (b : Bool) (c : Char), c ∈ utils.dashCollapseAux b l → c ∈ l := by
  induction l with
  | nil => intro b c hc; simp [utils.dashCollapseAux] at hc
  | cons a rest ih =>
      intro b c hc
      by_cases ha : a = '-'
      · subst ha
        cases b with
        | true =>
            rw [show utils.dashCollapseAux true ('-' :: rest) =
                  utils.dashCollapseAux true rest by simp [utils.dashCollapseAux]] at hc
            exact List.mem_cons_of_mem _ (ih true c hc)
        | false =>
            rw [show utils.dashCollapseAux false ('-' :: rest) =
                  '-' :: utils.dashCollapseAux true rest by
              simp [utils.dashCollapseAux]] at hc
            rcases List.mem_cons.mp hc with rfl | hc
            · exact List.mem_cons_self _ _
            · exact List.mem_cons_of_mem _ (ih true c hc)
      · rw [show utils.dashCollapseAux b (a :: rest) =
              a :: utils.dashCollapseAux false rest by simp [utils.dashCollapseAux, ha]] at hc
        rcases List.mem_cons.mp hc with rfl | hc
        · exact List.mem_cons_self _ _
        · exact List.mem_cons_of_mem _ (ih false c hc)

theorem dashCollapseAux_ok (l : List Char) :
    ∀ b : Bool, (utils.dashCollapseAux b l).Chain' noDD ∧
      (b = true → (utils.dashCollapseAux b l).head? ≠ some '-') := by
  induction l with
  | nil =>
      intro b
      exact ⟨by simp [utils.dashCollapseAux], fun _ => by simp [utils.dashCollapseAux]⟩
  | cons a rest ih =>
      intro b
      by_cases ha : a = '-'
      · subst ha
        cases b with
        | true =>
            rw [show utils.dashCollapseAux true ('-' :: rest) =
                  utils.dashCollapseAux true rest by simp [utils.dashCollapseAux]]
            exact ih true
        | false =>
            rw [show utils.dashCollapseAux false ('-' :: rest) =
                  '-' :: utils.dashCollapseAux true rest by simp [utils.dashCollapseAux]]
            constructor
            · rw [List.chain'_cons']
              refine ⟨?_, (ih true).1⟩
              intro y hy hcon
              apply (ih true).2 rfl
              rw [Option.mem_def] at hy
              rw [hy, hcon.2]
            · intro hfalse
              cases hfalse
      · rw [show utils.dashCollapseAux b (a :: rest) =
              a :: utils.dashCollapseAux false rest by simp [utils.dashCollapseAux, ha]]
        constructor
        · rw [List.chain'_cons']
          refine ⟨?_, (ih false).1⟩
          intro y hy hcon
          exact ha hcon.1
        · intro _ hcon
          exact ha (by injection hcon)

theorem trimLead_subset (l : List Char) (c : Char) (hc : c ∈ utils.trimLead l) : c ∈ l := by
  unfold utils.trimLead at hc
  split at hc
  · exact List.mem_cons_of_mem _ hc
  · exact hc

theorem trimLead_chain {R : Char → Char → Prop} (l : List Char) (h : l.Chain' R) :
    (utils.trimLead l).Chain' R := by
  unfold utils.trimLead
  split
  · exact (List.chain'_cons'.mp h).2
  · exact h

theorem trimLead_head (l : List Char) (h : l.Chain' noDD) :
    (utils.trimLead l).head? ≠ some '-' := by
  unfold utils.trimLead
  split
  · next rest =>
      cases rest with
      | nil => simp
      | cons y t =>
          have hy := (List.chain'_cons'.mp h).1 y rfl
          simp only [List.head?_cons, ne_eq, Option.some.injEq]
          intro hcon
          exact hy ⟨rfl, hcon⟩
  · next hno =>
      cases l with
      | nil => simp
      | cons a rest =>
          simp only [List.head?_cons, ne_eq, Option.some.injEq]
          intro ha
          exact hno rest (by rw [ha])

theorem trimLead_getLast (l : List Char) :
    utils.trimLead l = [] ∨ (utils.trimLead l).getLast? = l.getLast? := by
  unfold utils.trimLead
  split
  · next rest =>
      cases rest with
      | nil => exact Or.inl rfl
      | cons y t => exact Or.inr List.getLast?_cons_cons.symm
  · exact Or.inr rfl

theorem slugOf_chars (raw : String) :
    ∀ c ∈ utils.slugOf raw, utils.isSlugChar c = true := by
  intro c hc
  unfold utils.slugOf utils.trimDashes at hc
  rw [List.mem_reverse] at hc
  have hc2 := trimLead_subset _ c hc
  rw [List.mem_reverse] at hc2
  have hc3 := trimLead_subset _ c hc2
  have hc4 := dashCollapseAux_subset _ false c hc3
  exact wsToDashAux_chars _ false (fun d hd => (List.mem_filter.mp hd).2) c hc4

theorem slugOf_isSlug (raw : String) (h : utils.slugOf raw ≠ []) :
    isSlug (utils.slugOf raw) := by
  have hu : (utils.dashCollapseAux false
      (utils.wsToDashAux false
        ((raw.data.map Char.toLower).filter utils.keepSlugSrc))).Chain' noDD :=
    (dashCollapseAux_ok _ false).1
  set u := utils.dashCollapseAux false
      (utils.wsToDashAux false ((raw.data.map Char.toLower).filter utils.keepSlugSrc))
    with hudef
  have hslug : utils.slugOf raw = (utils.trimLead (utils.trimLead u).reverse).reverse := rfl
  have ht1 : (utils.trimLead u).Chain' noDD := trimLead_chain u hu
  have ht1rev : (utils.trimLead u).reverse.Chain' noDD := by
    rw [List.chain'_reverse]
    exact List.Chain'.imp (fun a b hab => noDD_symm hab) ht1
  have ht2 : (utils.trimLead (utils.trimLead u).reverse).Chain' noDD :=
    trimLead_chain _ ht1rev
  refine ⟨h, slugOf_chars raw, ?_, ?_, ?_⟩
  · rw [hslug, List.chain'_reverse]
    exact List.Chain'.imp (fun a b hab => noDD_symm hab) ht2
  · rw [hslug, List.head?_reverse]
    rcases trimLead_getLast ((utils.trimLead u).reverse) with hnil | heq
    · exfalso
      apply h
      rw [hslug, hnil]
      rfl
    · rw [heq, List.getLast?_reverse]
      exact trimLead_head u hu
  · rw [hslug, List.getLast?_reverse]
    exact trimLead_head _ ht1rev

theorem createKey_of_slug (raw : String) (e : Nat) (h : utils.slugOf raw ≠ []) :
    utils.createKey raw e = String.mk (utils.slugOf raw) := by
  simp [utils.createKey, h]

theorem createKey_of_empty (raw : String) (e : Nat) (h : utils.slugOf raw = []) :
    utils.createKey raw e = "id-" ++ String.mk (Nat.toDigits 16 e) := by
  simp [utils.createKey, h]

theorem mk_ne_empty (l : List Char) (h : l ≠ []) : String.mk l ≠ "" := by
  intro hc
  apply h
  have := congrArg String.data hc
  simpa using this

/-- C5 (corrected): the claim fails as stated — `createKey` is not
deterministic on inputs whose slug is empty: two calls on the identical
purely-symbolic input draw different random fallback identifiers. -/
theorem C5_counterexample :
    utils.createKey "!!!" 0 ≠ utils.createKey "!!!" 1 ∧
    utils.createKey "!!!" 0 = "id-0" ∧ utils.createKey "!!!" 1 = "id-1" := by
  refine ⟨?_, by decide, by decide⟩
  decide

/-- C5 (amended): `createKey` always returns a non-empty string that is
either a well-formed slug (lowercase letters, digits and single interior
hyphens) or of the fallback form `id-<hex>`; it is deterministic —
independent of the drawn entropy — exactly on the inputs whose slug is
non-empty, while the random fallback makes purely-symbolic inputs
non-deterministic. -/
theorem C5_theorem (raw : String) (e1 e2 : Nat) :
    utils.createKey raw e1 ≠ "" ∧
    (isSlug (utils.createKey raw e1).data ∨
      ∃ n, utils.createKey raw e1 = "id-" ++ String.mk (Nat.toDigits 16 n)) ∧
    (utils.slugOf raw ≠ [] → utils.createKey raw e1 = utils.createKey raw e2) := by
  by_cases h : utils.slugOf raw = []
  · rw [createKey_of_empty raw e1 h]
    refine ⟨?_, Or.inr ⟨e1, rfl⟩, fun hc => absurd h hc⟩
    intro hc
    have hd : 'i' :: 'd' :: '-' :: Nat.toDigits 16 e1 = [] := congrArg String.data hc
    cases hd
  · rw [createKey_of_slug raw e1 h]
    refine ⟨mk_ne_empty _ h, Or.inl ?_, fun _ => ?_⟩
    · have : (String.mk (utils.slugOf raw)).data = utils.slugOf raw := rfl
      rw [this]
      exact slugOf_isSlug raw h
    · rw [createKey_of_slug raw e2 h]

/-- Witness for C5 at the input `"anna"`. -/
theorem C5_witness :
    (utils.createKey "anna" 0 ≠ "" ∧
      (isSlug (utils.createKey "anna" 0).data ∨
        ∃ n, utils.createKey "anna" 0 = "id-" ++ String.mk (Nat.toDigits 16 n)) ∧
      (utils.slugOf "anna" ≠ [] → utils.createKey "anna" 0 = utils.createKey "anna" 1)) ∧
    utils.createKey "anna" 0 = utils.createKey "anna" 1 :=
  ⟨ C5_theorem "anna" 0 1, ( C5_theorem "anna" 0 1).2.2 (by decide)⟩

/-! ## C7 -/

theorem mapSet_keys (m : List NameEntry) (k : String) (v : NameEntry) (hv : v.key = k) :
    (utils.mapSet m k v).map NameEntry.key =
      if k ∈ m.map NameEntry.key then m.map NameEntry.key
      else m.map NameEntry.key ++ [k] := by
  unfold utils.mapSet
  split
  · next h =>
      rw [List.map_map]
      apply List.map_congr_left
      intro it hit
      by_cases hik : it.key = k
      · simp [Function.comp, hik, hv]
      · simp [Function.comp, hik]
  · next h =>
      simp [hv]

theorem mapSet_mem (m : List NameEntry) (k : String) (v : NameEntry) (hv : v.key = k) :
    k ∈ (utils.mapSet m k v).map NameEntry.key := by
  rw [mapSet_keys m k v hv]
  split
  · next h => exact h
  · exact List.mem_append_right _ (List.mem_singleton_self k)

theorem mapSet_nodup (m : List NameEntry) (k : String) (v : NameEntry) (hv : v.key = k)
    (h : (m.map NameEntry.key).Nodup) : ((utils.mapSet m k v).map NameEntry.key).Nodup := by
  rw [mapSet_keys m k v hv]
  split
  · exact h
  · next hnk =>
      rw [List.nodup_append]
      refine ⟨h, List.nodup_singleton k, ?_⟩
      intro a ha hb
      rw [List.mem_singleton.mp hb] at ha
      exact hnk ha

theorem replace_filter (m : List NameEntry) (k : String) (v : NameEntry) (hv : v.key = k)
    (h : (m.map NameEntry.key).Nodup) (hmem : k ∈ m.map NameEntry.key) :
    (m.map (fun it => if it.key = k then v else it)).filter
      (fun n => decide (n.key = k)) = [v] := by
  induction m with
  | nil => cases hmem
  | cons a rest ih =>
      rw [List.map_cons, List.nodup_cons] at h
      rw [List.map_cons] at hmem
      rw [List.map_cons]
      by_cases hak : a.key = k
      · rw [if_pos hak, List.filter_cons_of_pos (by simp [hv])]
        have hrest : (rest.map (fun it => if it.key = k then v else it)).filter
            (fun n => decide (n.key = k)) = [] := by
          rw [List.filter_eq_nil_iff]
          intro x hx
          rcases List.mem_map.mp hx with ⟨it, hit, rfl⟩
          have hik : it.key ≠ k := by
            intro hik
            exact h.1 (by rw [← hak] at hik; exact hik ▸ List.mem_map_of_mem NameEntry.key hit)
          rw [if_neg hik]
          simp [hik]
        rw [hrest]
      · rw [if_neg hak, List.filter_cons_of_neg (by simp [hak])]
        have hmem2 : k ∈ rest.map NameEntry.key := by
          rcases List.mem_cons.mp hmem with hk2 | hk2
          · exact absurd hk2.symm hak
          · exact hk2
        exact ih h.2 hmem2

theorem mapSet_filter (m : List NameEntry) (k : String) (v : NameEntry) (hv : v.key = k)
    (h : (m.map NameEntry.key).Nodup) :
    (utils.mapSet m k v).filter (fun n => decide (n.key = k)) = [v] := by
  unfold utils.mapSet
  split
  · next hmem => exact replace_filter m k v hv h hmem
  · next hmem =>
      rw [List.filter_append]
      have h1 : m.filter (fun n => decide (n.key = k)) = [] := by
        rw [List.filter_eq_nil_iff]
        intro x hx
        intro hc
        rw [decide_eq_true_eq] at hc
        exact hmem (hc ▸ List.mem_map_of_mem NameEntry.key hx)
      rw [h1, List.nil_append, List.filter_cons_of_pos (by simp [hv]), List.filter_nil]

theorem foldl_mapSet_eq (l : List NameEntry) :
    ∀ acc : List NameEntry, (((acc ++ l).map NameEntry.key)).Nodup →
      l.foldl (fun m it => utils.mapSet m it.key it) acc = acc ++ l := by
  induction l with
  | nil => intro acc _; simp
  | cons a rest ih =>
      intro acc hnd
      have hka : a.key ∉ acc.map NameEntry.key := by
        rw [List.map_append, List.nodup_append] at hnd
        intro hc
        exact hnd.2.2 hc (by simp)
      have hset : utils.mapSet acc a.key a = acc ++ [a] := by
        unfold utils.mapSet
        rw [if_neg hka]
      rw [List.foldl_cons, hset, ih (acc ++ [a]) (by simpa using hnd)]
      simp

theorem mapFromEntries_eq (existing : List NameEntry)
    (h : (existing.map NameEntry.key).Nodup) :
    utils.mapFromEntries existing = existing := by
  unfold utils.mapFromEntries
  have := foldl_mapSet_eq existing [] (by simpa using h)
  simpa using this

theorem mergeGo_cons (ent : Nat → Nat) (m : List NameEntry) (raw : String)
    (rest : List String) (i : Nat) (h : utils.cleanRaw raw ≠ "") :
    utils.mergeGo ent m (raw :: rest) i =
      utils.mergeGo ent
        (utils.mapSet m (utils.createKey (utils.cleanRaw raw) (ent i))
          { raw := utils.cleanRaw raw,
            key := utils.createKey (utils.cleanRaw raw) (ent i) }) rest (i + 1) := by
  simp [utils.mergeGo, h]

/-- C7 (corrected): the claim fails as stated — merging the same
purely-symbolic raw name twice creates two roster entries, because each
merge draws a fresh random fallback key. -/
theorem C7_counterexample :
    utils.mergeNames [] ["!", "!"] (fun i => i) =
      [{ raw := "!", key := "id-0" }, { raw := "!", key := "id-1" }] ∧
    (utils.mergeNames [] ["!", "!"] (fun i => i)).length = 2 := by
  refine ⟨?_, by decide⟩
  decide

/-- C7 (amended): on a duplicate-free roster, merging a raw name twice
whose cleaned text has a non-empty slug yields exactly one entry for the
derived key, carrying the last-merged text; the result never duplicates a
key, existing entries keep their relative order, and a new key is appended
at the end.  For empty-slug names the random fallback key breaks the
exactly-one-entry part. -/
theorem C7_theorem (existing : List NameEntry) (raw : String) (ent : Nat → Nat)
    (hnd : (existing.map NameEntry.key).Nodup)
    (hclean : utils.cleanRaw raw ≠ "")
    (hslug : utils.slugOf (utils.cleanRaw raw) ≠ []) :
    (utils.mergeNames existing [raw, raw] ent).filter
        (fun n => decide (n.key = String.mk (utils.slugOf (utils.cleanRaw raw)))) =
      [{ raw := utils.cleanRaw raw,
         key := String.mk (utils.slugOf (utils.cleanRaw raw)) }] ∧
    ((utils.mergeNames existing [raw, raw] ent).map NameEntry.key).Nodup ∧
    (utils.mergeNames existing [raw, raw] ent).map NameEntry.key =
      (if String.mk (utils.slugOf (utils.cleanRaw raw)) ∈ existing.map NameEntry.key
       then existing.map NameEntry.key
       else existing.map NameEntry.key ++
         [String.mk (utils.slugOf (utils.cleanRaw raw))]) := by
  have hck : ∀ e : Nat, utils.createKey (utils.cleanRaw raw) e =
      String.mk (utils.slugOf (utils.cleanRaw raw)) :=
    fun e => createKey_of_slug _ e hslug
  set k := String.mk (utils.slugOf (utils.cleanRaw raw)) with hkdef
  set vk : NameEntry := { raw := utils.cleanRaw raw, key := k } with hvkdef
  have hmerge : utils.mergeNames existing [raw, raw] ent =
      utils.mapSet (utils.mapSet existing k vk) k vk := by
    unfold utils.mergeNames
    rw [mapFromEntries_eq existing hnd, mergeGo_cons ent _ raw _ 0 hclean, hck,
      mergeGo_cons ent _ raw _ 1 hclean, hck]
    rfl
  have hnd1 : ((utils.mapSet existing k vk).map NameEntry.key).Nodup :=
    mapSet_nodup existing k vk rfl hnd
  refine ⟨?_, ?_, ?_⟩
  · rw [hmerge]
    exact mapSet_filter _ k vk rfl hnd1
  · rw [hmerge]
    exact mapSet_nodup _ k vk rfl hnd1
  · rw [hmerge, mapSet_keys _ k vk rfl, if_pos (mapSet_mem existing k vk rfl),
      mapSet_keys existing k vk rfl]

/-- Witness for C7 at the empty roster and the raw name `"anna"`. -/
theorem C7_witness :
    (utils.mergeNames [] ["anna", "anna"] (fun i => i)).filter
        (fun n => decide (n.key = String.mk (utils.slugOf (utils.cleanRaw "anna")))) =
      [{ raw := utils.cleanRaw "anna",
         key := String.mk (utils.slugOf (utils.cleanRaw "anna")) }] ∧
    ((utils.mergeNames [] ["anna", "anna"] (fun i => i)).map NameEntry.key).Nodup ∧
    (utils.mergeNames [] ["anna", "anna"] (fun i => i)).map NameEntry.key =
      (if String.mk (utils.slugOf (utils.cleanRaw "anna")) ∈
          ([] : List NameEntry).map NameEntry.key
       then ([] : List NameEntry).map NameEntry.key
       else ([] : List NameEntry).map NameEntry.key ++
         [String.mk (utils.slugOf (utils.cleanRaw "anna"))]) :=
  C7_theorem [] "anna" (fun i => i) (by decide) (by decide) (by decide)

/-! ## C6 -/

theorem sanitizeGo_cons_new (ent : Nat → Nat) (r : String) (items : List storage.NameItem)
    (i : Nat) (acc : List NameEntry) (seen : List String)
    (hr : utils.cleanRaw r ≠ "")
    (hnotin : utils.createKey (utils.cleanRaw r) (ent i) ∉ seen) :
    storage.sanitizeGo ent ({ raw := some r } :: items) i (acc, seen) =
      storage.sanitizeGo ent items (i + 1)
        (acc ++ [{ raw := utils.cleanRaw r,
                   key := utils.createKey (utils.cleanRaw r) (ent i) }],
         seen ++ [utils.createKey (utils.cleanRaw r) (ent i)]) := by
  simp [storage.sanitizeGo, hr, hnotin]

theorem sanitizeGo_clean (ent : Nat → Nat) (names : List NameEntry) :
    ∀ (i : Nat) (acc : List NameEntry) (seen : List String),
      (∀ n ∈ names, utils.cleanRaw n.raw = n.raw ∧ utils.slugOf n.raw ≠ [] ∧
        n.key = String.mk (utils.slugOf n.raw)) →
      (∀ n ∈ names, n.key ∉ seen) →
      (names.map NameEntry.key).Nodup →
      storage.sanitizeGo ent (names.map (fun n => { raw := some n.raw })) i (acc, seen) =
        (acc ++ names, seen ++ names.map NameEntry.key) := by
  induction names with
  | nil => intro i acc seen _ _ _; simp [storage.sanitizeGo]
  | cons n rest ih =>
      intro i acc seen hder hseen hnd
      have hn := hder n (List.mem_cons_self n rest)
      have hraw : utils.cleanRaw n.raw = n.raw := hn.1
      have hslug := hn.2.1
      have hkey := hn.2.2
      have hck : utils.createKey (utils.cleanRaw n.raw) (ent i) = n.key := by
        rw [hraw, createKey_of_slug _ _ hslug, hkey]
      have hne : utils.cleanRaw n.raw ≠ "" := by
        rw [hraw]
        intro hc
        apply hslug
        rw [hc]
        decide
      rw [List.map_cons, List.nodup_cons] at hnd
      rw [List.map_cons,
        sanitizeGo_cons_new ent n.raw _ i acc seen hne
          (by rw [hck]; exact hseen n (List.mem_cons_self n rest)),
        hck, hraw]
      have hentry : ({ raw := n.raw, key := n.key } : NameEntry) = n := rfl
      rw [hentry,
        ih (i + 1) (acc ++ [n]) (seen ++ [n.key])
          (fun m hm => hder m (List.mem_cons_of_mem n hm))
          (fun m hm => by
            rw [List.mem_append, List.mem_singleton]
            rintro (hin | heq)
            · exact hseen m (List.mem_cons_of_mem n hm) hin
            · exact hnd.1 (heq ▸ List.mem_map_of_mem NameEntry.key hm))
          hnd.2]
      simp

theorem histGo_id (fresh : Nat → String) (l : List HistEntry) :
    ∀ i : Nat, (∀ e ∈ l, e.id ≠ "") → storage.histGo fresh l i = l := by
  induction l with
  | nil => intro i _; rfl
  | cons e rest ih =>
      intro i h
      have he := h e (List.mem_cons_self e rest)
      show ({ key := e.key, ts := e.ts, id := if e.id = "" then fresh i else e.id } :
          HistEntry) :: storage.histGo fresh rest (i + 1) = e :: rest
      rw [if_neg he, ih (i + 1) (fun x hx => h x (List.mem_cons_of_mem e hx))]

/-- C6 (corrected): the claim fails as stated — a snapshot produced by the
store whose history references a name no longer in the roster does not
survive the round trip: the sanitizing import drops the stale history
entry. -/
theorem C6_counterexample :
    staleState.history =
      [{ key := "b", ts := "2024-01-07T08:00:00.000Z", id := "u1" }] ∧
    storage.importPayload (fun _ => true) (fun _ => "u") (fun _ => 0)
        (.obj (storage.exportDoc (storage.exportPayload staleState))) =
      .ok staleResult ∧
    staleResult.history = [] := by
  refine ⟨by decide, ?_, by decide⟩
  decide

/-- C6 (amended): the round trip `importPayload ∘ exportPayload` reproduces
the snapshot exactly, provided the snapshot is internally coherent: every
name's key is the slug derived from its already-normalized raw text, keys
are duplicate-free, every absence key and history key references a roster
entry, history timestamps parse, history identifiers are non-empty, the
history is within its 20-entry bound, the enumerated settings are valid,
and the class key is non-empty.  Snapshots with stale history keys (allowed
in the store) lose those entries. -/
theorem C6_theorem (tsValid : String → Bool) (fresh : Nat → String) (ent : Nat → Nat)
    (s : StoreData)
    (hck : s.classKey ≠ "")
    (hkeys : (s.names.map NameEntry.key).Nodup)
    (hderive : ∀ n ∈ s.names, utils.cleanRaw n.raw = n.raw ∧ utils.slugOf n.raw ≠ [] ∧
      n.key = String.mk (utils.slugOf n.raw))
    (habs : ∀ k ∈ s.absentKeys, k ∈ s.names.map NameEntry.key)
    (hhist : ∀ e ∈ s.history, e.key ∈ s.names.map NameEntry.key ∧ tsValid e.ts = true ∧
      e.id ≠ "")
    (hlen : s.history.length ≤ 20)
    (hrm : s.settings.reducedMotionMode ∈ (["auto", "on", "off"] : List String))
    (hth : s.settings.theme ∈ (["auto", "light", "dark"] : List String)) :
    storage.importPayload tsValid fresh ent
        (.obj (storage.exportDoc (storage.exportPayload s))) =
      .ok (storage.exportPayload s) := by
  have hparse : storage.parse (.obj (storage.exportDoc (storage.exportPayload s))) =
      .ok (storage.exportDoc (storage.exportPayload s)) := by
    simp [storage.parse, storage.exportDoc, storage.exportPayload, APP_VERSION]
  unfold storage.importPayload
  rw [hparse]
  show Except.ok (storage.sanitizeDoc tsValid fresh ent
      (storage.exportDoc (storage.exportPayload s))) =
    Except.ok (storage.exportPayload s)
  congr 1
  have hsan := sanitizeGo_clean ent s.names 0 [] [] hderive (by simp) hkeys
  unfold storage.sanitizeDoc
  simp only [storage.exportDoc, storage.exportPayload, Option.getD_some]
  simp only [hsan, List.nil_append]
  have habs2 : s.absentKeys.filter
      (fun k => decide (k ∈ s.names.map NameEntry.key)) = s.absentKeys := by
    rw [List.filter_eq_self]
    intro k hk
    exact decide_eq_true (habs k hk)
  have hhist2 : ((storage.histGo fresh s.history 0).filter
      (fun e => decide (e.key ∈ s.names.map NameEntry.key) && tsValid e.ts)).take 20 =
      s.history := by
    rw [histGo_id fresh s.history 0 (fun e he => (hhist e he).2.2)]
    have : s.history.filter
        (fun e => decide (e.key ∈ s.names.map NameEntry.key) && tsValid e.ts) =
        s.history := by
      rw [List.filter_eq_self]
      intro e he
      rw [Bool.and_eq_true, decide_eq_true_eq]
      exact ⟨(hhist e he).1, (hhist e he).2.1⟩
    rw [this]
    exact List.take_of_length_le hlen
  rw [habs2, hhist2]
  have hsettings : storage.importSettings
      (some { spinMs := some (some s.settings.spinMs),
              reducedMotionMode := some s.settings.reducedMotionMode,
              theme := some s.settings.theme }) = s.settings := by
    unfold storage.importSettings
    simp only [Option.getD_some]
    rw [if_pos (by simpa using hrm), if_pos (by simpa using hth)]
  rw [hsettings, if_neg hck]

/-- Witness for C6 on a coherent one-name snapshot. -/
theorem C6_witness :
    storage.importPayload (fun _ => true) (fun _ => "u") (fun _ => 0)
        (.obj (storage.exportDoc (storage.exportPayload demoSnap))) =
      .ok (storage.exportPayload demoSnap) :=
  C6_theorem (fun _ => true) (fun _ => "u") (fun _ => 0) demoSnap (by decide) (by decide)
    (by decide) (by decide) (by decide) (by decide) (by decide) (by decide)

end Losovacka
